import Mathlib

/-!
Verification of the yolo-go-detector pipeline (shallow embedding).

The definitions below are translated from the Go sources of the repository:
  * `src/main.go` — bounding boxes, IoU, letterbox geometry, output decoding,
    non-maximum suppression;
  * `src/unnamed/part_003` — the session pool (`ModelSessionPool`), the task
    manager (`VideoDetectorManager.SubmitTask`) and the batch orchestrator
    (`VideoDetectorManager.ProcessImageBatch`).

Go `float32`/`float64` values are modelled as exact rationals (`ℚ`); machine
integers as `ℤ`/`ℕ` (none of the verified properties exercises overflow).
Channel-based concurrency is modelled by explicit state-passing: the pool and
the manager become state machines whose transitions mirror the corresponding
Go statements, and Go `select` statements become the list of outcomes the Go
memory model allows at one observed instant.
-/

namespace YoloSpec

/-! ### Bounding boxes and IoU (src/main.go:806-846) -/

/-- Mirror of `boundingBox` (src/main.go:808-813): label, confidence and the
two corners.  Go `float32` fields are modelled as `ℚ`. -/
structure boundingBox where
  label : String
  confidence : ℚ
  x1 : ℚ
  y1 : ℚ
  x2 : ℚ
  y2 : ℚ
deriving DecidableEq, Repr

/-- Go conversion `int(q)` for a float value: truncation toward zero. -/
def goTrunc (q : ℚ) : ℤ :=
  q.num.tdiv q.den

/-- An integer rectangle as produced by Go `image.Rect` (which swaps the two
corners when given in the wrong order, so that `x0 ≤ x1` and `y0 ≤ y1`). -/
structure GoRect where
  x0 : ℤ
  y0 : ℤ
  x1 : ℤ
  y1 : ℤ
deriving DecidableEq, Repr

/-- Go `image.Rect(x0, y0, x1, y1)` including its corner-swapping
canonicalisation. -/
def mkRect (x0 y0 x1 y1 : ℤ) : GoRect :=
  { x0 := min x0 x1, y0 := min y0 y1, x1 := max x0 x1, y1 := max y0 y1 }

/-- Mirror of `boundingBox.toRect` (src/main.go:821-823):
`image.Rect(int(x1+0.5), int(y1+0.5), int(x2+0.5), int(y2+0.5))`. -/
def boundingBox.toRect (b : boundingBox) : GoRect :=
  mkRect (goTrunc (b.x1 + 1/2)) (goTrunc (b.y1 + 1/2))
    (goTrunc (b.x2 + 1/2)) (goTrunc (b.y2 + 1/2))

/-- Go `r1.Intersect(r2).Size()`: the intersection rectangle, or the zero
rectangle when the intersection is empty (`Min.X ≥ Max.X ∨ Min.Y ≥ Max.Y`). -/
def rectIntersectSize (r1 r2 : GoRect) : ℤ × ℤ :=
  let ix0 := max r1.x0 r2.x0
  let iy0 := max r1.y0 r2.y0
  let ix1 := min r1.x1 r2.x1
  let iy1 := min r1.y1 r2.y1
  if ix0 < ix1 ∧ iy0 < iy1 then (ix1 - ix0, iy1 - iy0) else (0, 0)

/-- Mirror of `boundingBox.intersection` (src/main.go:831-836). -/
def boundingBox.intersection (b other : boundingBox) : ℚ :=
  let sz := rectIntersectSize b.toRect other.toRect
  ((sz.1 * sz.2 : ℤ) : ℚ)

/-- Mirror of `boundingBox.area` (src/main.go:825-829). -/
def boundingBox.area (b : boundingBox) : ℚ :=
  (b.x2 - b.x1) * (b.y2 - b.y1)

/-- Mirror of `boundingBox.union` (src/main.go:838-842). -/
def boundingBox.union (b other : boundingBox) : ℚ :=
  b.area + other.area - b.intersection other

/-- Mirror of `boundingBox.iou` (src/main.go:844-846). -/
def boundingBox.iou (b other : boundingBox) : ℚ :=
  b.intersection other / b.union other

/-! ### Non-maximum suppression (src/main.go:1330-1414) -/

/-- The comparator used by `sort.Slice` in `processOutput` and
`nonMaxSuppression`: `boxes[i].confidence > boxes[j].confidence`, i.e.
descending confidence.  A Go `sort.Slice` result is a permutation that is
sorted for this comparator; we realise it with a (deterministic) merge sort. -/
def sortByConfidence (boxes : List boundingBox) : List boundingBox :=
  boxes.mergeSort (fun a b => decide (b.confidence ≤ a.confidence))

/-- One greedy suppression sweep with the `picked` bookkeeping of
`nonMaxSuppressionP` (src/main.go:1330-1374): the head of the remaining list
is kept, every later box of the same label whose IoU with it is `≥` the
threshold is marked picked (i.e. removed from the remaining list), and the
sweep continues on what is left.  Marking a later box `j` as `picked[j]` and
skipping it when its turn comes is exactly removal from the remaining list. -/
def suppressPass : List boundingBox → ℚ → List boundingBox
  | [], _ => []
  | b :: rest, thr =>
    b :: suppressPass
      (rest.filter (fun c => decide ¬(b.label = c.label ∧ thr ≤ b.iou c))) thr
termination_by l _ => l.length
decreasing_by
  simp only [List.length_cons]
  exact Nat.lt_succ_of_le (List.length_filter_le _ _)

/-- Mirror of `nonMaxSuppressionP` (src/main.go:1330-1374): the input is
already sorted by descending confidence (its caller `processOutput` sorts);
an empty input yields `[]`. -/
def nonMaxSuppressionP (boxes : List boundingBox) (iouThreshold : ℚ) :
    List boundingBox :=
  if boxes.isEmpty then [] else suppressPass boxes iouThreshold

/-- Mirror of `nonMaxSuppression` (src/main.go:1378-1414): sort by descending
confidence, then the same greedy class-aware sweep with the inclusive `≥`
bound. -/
def nonMaxSuppression (boxes : List boundingBox) (iouThreshold : ℚ) :
    List boundingBox :=
  if boxes.isEmpty then boxes
  else suppressPass (sortByConfidence boxes) iouThreshold

/-! ### Letterbox geometry (src/main.go:113-122, 909-941) -/

/-- Mirror of `ScaleInfo` (src/main.go:115-122). -/
structure ScaleInfo where
  scaleX : ℚ
  scaleY : ℚ
  padLeft : ℤ
  padTop : ℤ
  newWidth : ℤ
  newHeight : ℤ
deriving DecidableEq, Repr

/-- Go `math.Round`: round half away from zero. -/
def goRound (q : ℚ) : ℤ :=
  if 0 ≤ q then ⌊q + 1/2⌋ else -⌊-q + 1/2⌋

/-- The `ScaleInfo` computed by `resizeWithLetterbox` (src/main.go:909-941,
fixed-square mode): `scale = min(target/width, target/height)`,
`newWidth = round(width·scale)`, `newHeight = round(height·scale)`,
`offsetX = (target-newWidth)/2`, `offsetY = (target-newHeight)/2` (Go integer
division), and the returned struct sets only `ScaleX, ScaleY, PadLeft, PadTop`
(line 940), leaving `NewWidth`/`NewHeight` at their zero values. -/
def letterboxScaleInfo (originalWidth originalHeight targetSize : ℕ) :
    ScaleInfo :=
  let scale : ℚ :=
    min ((targetSize : ℚ) / (originalWidth : ℚ))
      ((targetSize : ℚ) / (originalHeight : ℚ))
  let newWidth : ℤ := goRound ((originalWidth : ℚ) * scale)
  let newHeight : ℤ := goRound ((originalHeight : ℚ) * scale)
  let offsetX : ℤ := ((targetSize : ℤ) - newWidth).tdiv 2
  let offsetY : ℤ := ((targetSize : ℤ) - newHeight).tdiv 2
  { scaleX := scale, scaleY := scale, padLeft := offsetX, padTop := offsetY,
    newWidth := 0, newHeight := 0 }

/-- Mirror of `clamp` (src/main.go:1198-1206). -/
def clamp (value minV maxV : ℚ) : ℚ :=
  if value < minV then minV else if value > maxV then maxV else value

/-- Forward letterbox map on an x coordinate: `resizeWithLetterbox` scales the
image by `scaleX` and draws it at horizontal offset `padLeft`
(src/main.go:936-938), so a point at original-image coordinate `x` lands at
model-space coordinate `x·scaleX + padLeft`.  The y direction uses `scaleY`
and `padTop` in the same way. -/
def forwardMapX (si : ScaleInfo) (x : ℚ) : ℚ :=
  x * si.scaleX + (si.padLeft : ℚ)

/-- Forward letterbox map on a y coordinate (see `forwardMapX`). -/
def forwardMapY (si : ScaleInfo) (y : ℚ) : ℚ :=
  y * si.scaleY + (si.padTop : ℚ)

/-- Inverse map used while decoding the output (src/main.go:1126-1139):
`originalX = (modelX - padLeft) / scaleX`, clamped to `[0, originalWidth]`. -/
def inverseMapX (si : ScaleInfo) (originalWidth : ℕ) (modelX : ℚ) : ℚ :=
  clamp ((modelX - (si.padLeft : ℚ)) / si.scaleX) 0 (originalWidth : ℚ)

/-- Inverse map on a y coordinate (src/main.go:1127-1139). -/
def inverseMapY (si : ScaleInfo) (originalHeight : ℕ) (modelY : ℚ) : ℚ :=
  clamp ((modelY - (si.padTop : ℚ)) / si.scaleY) 0 (originalHeight : ℚ)

/-! ### Output decoding (src/main.go:1093-1162) -/

/-- The 80 COCO class labels (src/main.go:1718-1729, `yoloClasses`). -/
def yoloClasses : List String :=
  ["person", "bicycle", "car", "motorcycle", "airplane", "bus", "train",
   "truck", "boat", "traffic light", "fire hydrant", "stop sign",
   "parking meter", "bench", "bird", "cat", "dog", "horse", "sheep", "cow",
   "elephant", "bear", "zebra", "giraffe", "backpack", "umbrella", "handbag",
   "tie", "suitcase", "frisbee", "skis", "snowboard", "sports ball", "kite",
   "baseball bat", "baseball glove", "skateboard", "surfboard",
   "tennis racket", "bottle", "wine glass", "cup", "fork", "knife", "spoon",
   "bowl", "banana", "apple", "sandwich", "orange", "broccoli", "carrot",
   "hot dog", "pizza", "donut", "cake", "chair", "couch", "potted plant",
   "bed", "dining table", "toilet", "tv", "laptop", "mouse", "remote",
   "keyboard", "cell phone", "microwave", "oven", "toaster", "sink",
   "refrigerator", "book", "clock", "vase", "scissors", "teddy bear",
   "hair drier", "toothbrush"]

/-- A checked read of `output[i]`: Go slice indexing panics out of bounds, so
the embedded read is `Option`-valued. -/
def outAt (output : List ℚ) (i : ℕ) : Option ℚ :=
  output[i]?

/-- Sequence a list of checked reads: `none` as soon as any read is out of
bounds. -/
def seqOption {α : Type} : List (Option α) → Option (List α)
  | [] => some []
  | o :: rest => o.bind fun a => (seqOption rest).map fun l => a :: l

/-- The class-score loop of `processOutput` (src/main.go:1110-1118): starting
from `maxClsProb = 0, classID = 0`, scan the 80 class scores in order and keep
the first strict maximum. -/
def classArgmax (probs : List ℚ) : ℚ × ℕ :=
  probs.enum.foldl
    (fun acc p => if p.2 > acc.1 then (p.2, p.1) else acc) ((0 : ℚ), 0)

/-- The body of the anchor loop of `processOutput` (src/main.go:1102-1154) for
one anchor `idx`: read the four box attributes and the 80 class scores at
`attribute·8400 + idx` (a panic on any out-of-bounds read makes the result
`none`), then apply the confidence filter, the inverse geometry map, the
clamp, and the degenerate-box filter; `some none` is an anchor that was read
successfully but discarded. -/
def decodeAnchor (output : List ℚ) (originalWidth originalHeight : ℕ)
    (confThreshold : ℚ) (si : ScaleInfo) (idx : ℕ) :
    Option (Option boundingBox) :=
  match outAt output (0 * 8400 + idx), outAt output (1 * 8400 + idx),
    outAt output (2 * 8400 + idx), outAt output (3 * 8400 + idx),
    seqOption ((List.range 80).map
      (fun classIdx => outAt output ((4 + classIdx) * 8400 + idx))) with
  | some xc, some yc, some w, some h, some clsProbs =>
    let m := classArgmax clsProbs
    let finalConf := m.1
    let classID := m.2
    if finalConf < confThreshold then some none
    else
      let origCenterX := (xc - (si.padLeft : ℚ)) / si.scaleX
      let origCenterY := (yc - (si.padTop : ℚ)) / si.scaleY
      let origW := w / si.scaleX
      let origH := h / si.scaleY
      let x1 := clamp (origCenterX - origW / 2) 0 (originalWidth : ℚ)
      let y1 := clamp (origCenterY - origH / 2) 0 (originalHeight : ℚ)
      let x2 := clamp (origCenterX + origW / 2) 0 (originalWidth : ℚ)
      let y2 := clamp (origCenterY + origH / 2) 0 (originalHeight : ℚ)
      if x2 ≤ x1 ∨ y2 ≤ y1 then some none
      else
        some (some
          { label := (yoloClasses.getD classID ""), confidence := finalConf,
            x1 := x1, y1 := y1, x2 := x2, y2 := y2 })
  | _, _, _, _, _ => none

/-- Mirror of `processOutput` (src/main.go:1093-1162): decode the 8400
anchors (any out-of-bounds slice read is a panic, i.e. `none`), keep the
surviving candidates in anchor order, sort by descending confidence and run
the class-aware suppression `nonMaxSuppressionP`. -/
def processOutput (output : List ℚ) (originalWidth originalHeight : ℕ)
    (confThreshold iouThresh : ℚ) (si : ScaleInfo) :
    Option (List boundingBox) :=
  match seqOption ((List.range 8400).map
    (decodeAnchor output originalWidth originalHeight confThreshold si)) with
  | none => none
  | some cands =>
    some (nonMaxSuppressionP (sortByConfidence cands.reduceOption) iouThresh)

/-! ### The session pool (src/unnamed/part_003:25-80) -/

/-- State of a `ModelSessionPool` at one observed instant: `idle` is
`len(pool.sessions)` (contexts resident in the buffered channel), and
`checkedOut` counts contexts handed to callers by `GetSession` and not yet
passed back to `PutSession`. -/
structure PoolState where
  idle : ℕ
  checkedOut : ℕ
deriving DecidableEq, Repr

/-- Number of execution contexts that are created and not yet destroyed
(checked out by a worker or idle in the pool). -/
def PoolState.live (s : PoolState) : ℕ :=
  s.idle + s.checkedOut

/-- Result of `GetSession`. -/
inductive GetOutcome
  | gotIdle
  | gotNew
  | errCapacity
  | errInit
deriving DecidableEq, Repr

/-- Mirror of `GetSession`/`createSession` (src/unnamed/part_003:43-80): take
an idle session from the channel when one is available, otherwise
`createSession`, which fails with the capacity error iff
`len(pool.sessions) ≥ maxSize` — the idle count, not the number of live
contexts — and otherwise creates a fresh session (`errInit` models an
`initSession` failure, driven by the oracle `initOk`). -/
def getSession (maxSize : ℕ) (initOk : Bool) (s : PoolState) :
    GetOutcome × PoolState :=
  if 0 < s.idle then
    (.gotIdle, { idle := s.idle - 1, checkedOut := s.checkedOut + 1 })
  else if maxSize ≤ s.idle then (.errCapacity, s)
  else if initOk then (.gotNew, { s with checkedOut := s.checkedOut + 1 })
  else (.errInit, s)

/-- Mirror of `PutSession` (src/unnamed/part_003:54-62): put the session back
when the channel has room, otherwise destroy it. -/
def putSession (maxSize : ℕ) (s : PoolState) : PoolState :=
  if s.idle < maxSize then
    { idle := s.idle + 1, checkedOut := s.checkedOut - 1 }
  else { s with checkedOut := s.checkedOut - 1 }

/-- Pool states reachable from a fresh `NewModelSessionPool`
(src/unnamed/part_003:34-40, empty channel) by any interleaving of
`GetSession` and `PutSession` calls; `PutSession` is only ever called by a
holder of a checked-out session. -/
inductive PoolReachable (maxSize : ℕ) : PoolState → Prop
  | protected init : PoolReachable maxSize ⟨0, 0⟩
  | get (initOk : Bool) {s : PoolState} :
      PoolReachable maxSize s →
      PoolReachable maxSize (getSession maxSize initOk s).2
  | put {s : PoolState} :
      PoolReachable maxSize s → 0 < s.checkedOut →
      PoolReachable maxSize (putSession maxSize s)

/-! ### Task submission (src/unnamed/part_003:82-150) -/

/-- Result of `SubmitTask`: `nil`, the manager-closed error, or the
queue-full error. -/
inductive SubmitResult
  | enqueued
  | managerClosed
  | queueFull
deriving DecidableEq, Repr

/-- State of a `VideoDetectorManager` relevant to `SubmitTask`: the number of
tasks in the buffered `taskQueue`, its capacity `queueSize`, and whether the
`shutdown` channel has been closed by `Stop`. -/
structure ManagerState where
  queueLen : ℕ
  queueCap : ℕ
  shutdownClosed : Bool
deriving DecidableEq, Repr

/-- A successful send on the task queue. -/
def enqueueTask (s : ManagerState) : ManagerState :=
  { s with queueLen := s.queueLen + 1 }

/-- Mirror of `SubmitTask` (src/unnamed/part_003:141-150), a Go `select` with
a send case, a receive-from-`shutdown` case, and a `default`: the list of
(result, state) outcomes Go permits at one observed instant.  The send case
is ready iff the queue has room, the receive case is ready iff `shutdown` is
closed; when several cases are ready Go chooses among them, and `default`
(the queue-full error) runs only when no case is ready. -/
def submitTask (s : ManagerState) : List (SubmitResult × ManagerState) :=
  if s.queueLen < s.queueCap ∧ s.shutdownClosed then
    [(.enqueued, enqueueTask s), (.managerClosed, s)]
  else if s.queueLen < s.queueCap then [(.enqueued, enqueueTask s)]
  else if s.shutdownClosed then [(.managerClosed, s)]
  else [(.queueFull, s)]

/-! ### Batch orchestration (src/unnamed/part_003:216-310) -/

/-- The per-task failure modes of `processTask`
(src/unnamed/part_003:216-268). -/
inductive TaskErr
  | sessionErr
  | loadErr
  | prepErr
  | runErr
deriving DecidableEq, Repr

/-- Error attached to a `DetectionResult`: a wrapped submission failure
(`提交任务失败`), the batch timeout (`处理超时`), or a per-task failure. -/
inductive DetError
  | submitFail (r : SubmitResult)
  | timeout
  | taskFail (e : TaskErr)
deriving DecidableEq, Repr

/-- Mirror of `DetectionResult` (src/unnamed/part_003:11-16); the metadata
map is not modelled. -/
structure DetectionResult where
  imagePath : String
  objects : List boundingBox
  error : Option DetError
deriving DecidableEq, Repr

/-- What one worker's `processTask` run produces for a task (which of its
error branches fires, or the detected boxes on success). -/
inductive TaskOutcome
  | fail (e : TaskErr)
  | ok (objects : List boundingBox)

/-- Mirror of `processTask` (src/unnamed/part_003:216-268): every branch
returns a `DetectionResult` whose `ImagePath` is the task's path. -/
def processTask (imagePath : String) : TaskOutcome → DetectionResult
  | .fail e => { imagePath := imagePath, objects := [],
                 error := some (.taskFail e) }
  | .ok objs => { imagePath := imagePath, objects := objs, error := none }

/-- Oracle for one `ProcessImageBatch` run: the result of `SubmitTask` for
the i-th submission, and whether (and with which outcome) a worker delivers
to the i-th private callback channel before `manager.timeout` elapses. -/
structure BatchEnv where
  submitRes : ℕ → SubmitResult
  delivery : ℕ → Option TaskOutcome

/-- First loop of `ProcessImageBatch` (src/unnamed/part_003:281-294):
`results` starts as zero values (`DetectionResult{}`), and a failed
submission records the wrapped error in slot `i` at once. -/
def batchSubmitLoop (paths : List String) (env : BatchEnv) :
    List DetectionResult :=
  paths.enum.map fun ip =>
    if env.submitRes ip.1 = .enqueued then
      { imagePath := "", objects := [], error := none }
    else
      { imagePath := ip.2, objects := [],
        error := some (.submitFail (env.submitRes ip.1)) }

/-- The value the wait loop of `ProcessImageBatch` assigns to slot `i`
(src/unnamed/part_003:297-307): the callback's result when one arrives in
time, else the `处理超时` (timeout) result. -/
def waitResult (paths : List String) (env : BatchEnv) (i : ℕ) :
    DetectionResult :=
  match env.delivery i with
  | some o => processTask (paths.getD i "") o
  | none =>
    { imagePath := (paths.getD i ""), objects := [], error := some .timeout }

/-- Second loop of `ProcessImageBatch` (src/unnamed/part_003:297-307): for
every index `i` in order, `results[i]` is assigned the callback result or the
timeout result. -/
def batchWaitLoop (paths : List String) (env : BatchEnv)
    (results : List DetectionResult) : List DetectionResult :=
  (List.range paths.length).foldl
    (fun acc i => acc.set i (waitResult paths env i)) results

/-- Mirror of `ProcessImageBatch` (src/unnamed/part_003:271-310): the
submission loop followed by the wait loop. -/
def processImageBatch (paths : List String) (env : BatchEnv) :
    List DetectionResult :=
  batchWaitLoop paths env (batchSubmitLoop paths env)

/-! ### Theorems -/

/-- C1: the pool-bound invariant claimed by the spec — every reachable pool
state has `live ≤ maxSize` — fails on the code: with `maxSize = 1`, two
`GetSession` calls on the fresh pool (no intervening `PutSession`) both take
the `createSession` path, which bounds only `len(pool.sessions)` (the idle
count) and therefore creates a second context while one is checked out,
reaching a state with 2 live contexts. -/
theorem pool_live_exceeds_maxSize :
    PoolReachable 1 ⟨0, 2⟩ ∧ 1 < PoolState.live ⟨0, 2⟩ := by
  constructor
  · have h0 : PoolReachable 1 ⟨0, 0⟩ := PoolReachable.init
    have h1 := h0.get true
    have h2 := h1.get true
    simpa [getSession] using h2
  · decide

/-- C2: `GetSession` does not implement the claimed contract: from the
reachable state with one context checked out and `maxSize = 1` it immediately
creates a second context (no wait, no retry, no `ResourceExhausted`), and the
capacity error is in fact reachable only when the idle count already fills
the pool — in this sequential model, only when `maxSize = 0` — not when the
active count reaches `maxSize`. -/
theorem getSession_ignores_active_count :
    PoolReachable 1 ⟨0, 1⟩ ∧
    getSession 1 true ⟨0, 1⟩ = (.gotNew, ⟨0, 2⟩) ∧
    (∀ (m : ℕ) (io : Bool) (s : PoolState),
      (getSession m io s).1 = .errCapacity ↔ s.idle = 0 ∧ m = 0) := by
  refine ⟨?_, by decide, ?_⟩
  · have h0 : PoolReachable 1 ⟨0, 0⟩ := PoolReachable.init
    have h1 := h0.get true
    simpa [getSession] using h1
  · intro m io s
    unfold getSession
    split_ifs with h1 h2 h3 <;> simp_all <;> omega

/-- Witness for `getSession_ignores_active_count`: the capacity-error
characterisation instantiated at `maxSize = 0` on a concrete state. -/
theorem getSession_ignores_active_count_witness :
    (getSession 0 true ⟨0, 5⟩).1 = .errCapacity :=
  (getSession_ignores_active_count.2.2 0 true ⟨0, 5⟩).mpr ⟨rfl, rfl⟩

/-- C7 (counterexample): with the queue at capacity and the manager shut
down, `SubmitTask` returns the manager-closed error — the ready `shutdown`
receive beats the `default` case — so a saturated queue does not always
yield the queue-full error as the claim states. -/
theorem submitTask_full_after_shutdown_not_queueFull :
    (submitTask ⟨1, 1, true⟩).map Prod.fst = [.managerClosed] ∧
    SubmitResult.queueFull ∉ (submitTask ⟨1, 1, true⟩).map Prod.fst := by
  decide

/-- C7 (amended): `SubmitTask` always returns immediately (the outcome list
is never empty); with the queue at capacity it fails with the queue-full
error when the manager is not shut down, and with the manager-closed error
when it is; after shutdown with spare queue capacity Go may pick either ready
case; and across all permitted outcomes the call returns `nil` exactly when
the task was enqueued. -/
theorem submitTask_spec (s : ManagerState) :
    submitTask s ≠ [] ∧
    (s.queueCap ≤ s.queueLen → s.shutdownClosed = false →
      submitTask s = [(.queueFull, s)]) ∧
    (s.queueCap ≤ s.queueLen → s.shutdownClosed = true →
      submitTask s = [(.managerClosed, s)]) ∧
    (∀ r t, (r, t) ∈ submitTask s →
      (r = .enqueued ↔ t.queueLen = s.queueLen + 1)) := by
  refine ⟨?_, ?_, ?_, ?_⟩
  · unfold submitTask
    split_ifs <;> simp
  · intro hfull hopen
    unfold submitTask
    split_ifs with h1 h2 h3 <;>
      first
        | rfl
        | exact absurd h1.1 (by omega)
        | exact absurd h2 (by omega)
        | exact absurd h3 (by simp [hopen])
  · intro hfull hclosed
    unfold submitTask
    split_ifs with h1 h2 h3 <;>
      first
        | rfl
        | exact absurd h1.1 (by omega)
        | exact absurd h2 (by omega)
        | exact absurd hclosed (by simpa using h3)
  · intro r t hmem
    unfold submitTask enqueueTask at hmem
    split_ifs at hmem <;> simp only [List.mem_cons, List.mem_singleton,
      List.not_mem_nil, or_false, Prod.mk.injEq] at hmem
    · rcases hmem with ⟨rfl, rfl⟩ | ⟨rfl, rfl⟩ <;> simp
    · obtain ⟨rfl, rfl⟩ := hmem
      simp
    · obtain ⟨rfl, rfl⟩ := hmem
      simp
    · obtain ⟨rfl, rfl⟩ := hmem
      simp

/-- Witness for `submitTask_spec`: a full queue on a manager that is not shut
down yields exactly the queue-full outcome. -/
theorem submitTask_spec_witness :
    1 ≤ 1 ∧ submitTask ⟨1, 1, false⟩ = [(.queueFull, ⟨1, 1, false⟩)] :=
  ⟨by decide, (submitTask_spec ⟨1, 1, false⟩).2.1 (by decide) rfl⟩

/-- Evaluation of the letterbox `ScaleInfo` on a 1080×810 image with target
size 640. -/
theorem letterboxScaleInfo_1080_810_640 :
    letterboxScaleInfo 1080 810 640 =
      { scaleX := 16/27, scaleY := 16/27, padLeft := 0, padTop := 80,
        newWidth := 0, newHeight := 0 } := by
  unfold letterboxScaleInfo goRound
  have hmin : min ((640 : ℚ) / 1080) ((640 : ℚ) / 810) = 16/27 := by
    norm_num [min_def]
  push_cast
  rw [hmin]
  norm_num
  decide

/-- C8 (counterexample): for an original image of 1080×810 and target 640,
the recorded padding is `padLeft = 0, padTop = 80`, not the claimed
`padLeft ≈ 27, padTop = 0` (the width, not the height, fills the square). -/
theorem letterbox_1080x810_claimed_pads_false :
    (letterboxScaleInfo 1080 810 640).padTop ≠ 0 ∧
    (letterboxScaleInfo 1080 810 640).padLeft = 0 ∧
    (letterboxScaleInfo 1080 810 640).padTop = 80 := by
  rw [letterboxScaleInfo_1080_810_640]
  exact ⟨by decide, rfl, rfl⟩

/-- C8 (amended): for 1080×810 at target 640 the forward transform records
`scaleX = scaleY = min(640/1080, 640/810) = 16/27 ≈ 0.593` and, after
rounding, `padLeft = 0` and `padTop = 80`. -/
theorem letterbox_1080x810_scaleInfo :
    (letterboxScaleInfo 1080 810 640).scaleX = 16/27 ∧
    (letterboxScaleInfo 1080 810 640).scaleY = 16/27 ∧
    |(letterboxScaleInfo 1080 810 640).scaleX - 593/1000| ≤ 1/1000 ∧
    (letterboxScaleInfo 1080 810 640).padLeft = 0 ∧
    (letterboxScaleInfo 1080 810 640).padTop = 80 := by
  rw [letterboxScaleInfo_1080_810_640]
  norm_num
  rw [abs_of_nonneg (by norm_num)]
  norm_num

/-- A fold that only stores at indices preserves the length. -/
theorem foldl_set_length {α : Type} (f : ℕ → α) :
    ∀ (l : List ℕ) (acc : List α),
      (l.foldl (fun a i => a.set i (f i)) acc).length = acc.length
  | [], _ => rfl
  | i :: rest, acc => by
    rw [List.foldl_cons, foldl_set_length f rest, List.length_set]

/-- Indices not stored to are left unchanged by the fold. -/
theorem foldl_set_getElem_not_mem {α : Type} (f : ℕ → α) :
    ∀ (l : List ℕ) (acc : List α) (k : ℕ), k ∉ l →
      (l.foldl (fun a i => a.set i (f i)) acc)[k]? = acc[k]?
  | [], _, _, _ => rfl
  | i :: rest, acc, k, hk => by
    have hk1 : k ≠ i := fun h => hk (h ▸ List.mem_cons_self i rest)
    have hk2 : k ∉ rest := fun h => hk (List.mem_cons_of_mem i h)
    rw [List.foldl_cons, foldl_set_getElem_not_mem f rest _ k hk2,
      List.getElem?_set_ne (fun h => hk1 h.symm)]

/-- An in-range index that is stored to holds the stored value after the
fold (every store to index `k` writes the same value `f k`). -/
theorem foldl_set_getElem_mem {α : Type} (f : ℕ → α) :
    ∀ (l : List ℕ) (acc : List α) (k : ℕ), k ∈ l → k < acc.length →
      (l.foldl (fun a i => a.set i (f i)) acc)[k]? = some (f k)
  | i :: rest, acc, k, hk, hlen => by
    rw [List.foldl_cons]
    by_cases hkr : k ∈ rest
    · exact foldl_set_getElem_mem f rest _ k hkr
        (by rw [List.length_set]; exact hlen)
    · have hki : k = i := by
        rcases List.mem_cons.mp hk with h | h
        · exact h
        · exact absurd h hkr
      subst hki
      rw [foldl_set_getElem_not_mem f rest _ k hkr,
        List.getElem?_set_self hlen]

/-- The submission loop produces one slot per input path. -/
theorem batchSubmitLoop_length (paths : List String) (env : BatchEnv) :
    (batchSubmitLoop paths env).length = paths.length := by
  unfold batchSubmitLoop
  rw [List.length_map, List.enum_length]

/-- `ProcessImageBatch` returns one `DetectionResult` per input path. -/
theorem processImageBatch_length (paths : List String) (env : BatchEnv) :
    (processImageBatch paths env).length = paths.length := by
  unfold processImageBatch batchWaitLoop
  rw [foldl_set_length, batchSubmitLoop_length]

/-- Slot `i` of the batch result is exactly what the wait loop assigns to it:
the callback result when one arrives in time, else the timeout result — in
particular the submission loop's entry for slot `i` never survives. -/
theorem processImageBatch_getElem (paths : List String) (env : BatchEnv)
    (i : ℕ) (hi : i < paths.length) :
    (processImageBatch paths env)[i]? = some (waitResult paths env i) := by
  unfold processImageBatch batchWaitLoop
  exact foldl_set_getElem_mem _ (List.range paths.length) _ i
    (List.mem_range.mpr hi) (by rw [batchSubmitLoop_length]; exact hi)

/-- C6: `ProcessImageBatch` on `k` paths returns exactly `k` results, and the
i-th result carries the i-th input path, whatever subset of the items fails
(submission failure, worker failure, or timeout — all fates the oracle `env`
can assign): the image paths of the output list are the input list. -/
theorem processImageBatch_preserves_paths (paths : List String)
    (env : BatchEnv) :
    (processImageBatch paths env).map DetectionResult.imagePath = paths := by
  apply List.ext_getElem?
  intro n
  rw [List.getElem?_map]
  by_cases hn : n < paths.length
  · rw [processImageBatch_getElem paths env n hn]
    have hpath : (waitResult paths env n).imagePath = paths.getD n "" := by
      unfold waitResult
      cases env.delivery n with
      | none => rfl
      | some o => cases o <;> rfl
    rw [Option.map_some', hpath, List.getD_eq_getElem?_getD,
      List.getElem?_eq_getElem hn]
    rfl
  · rw [List.getElem?_eq_none (by rw [processImageBatch_length]; omega),
      List.getElem?_eq_none (by omega)]
    rfl

/-- C5 (counterexample): a one-element batch whose submission fails (queue
full) and whose callback therefore never fires returns the timeout error in
slot 0, not the submission-failure error the claim requires. -/
theorem batch_submit_failure_not_reported :
    processImageBatch ["a"] ⟨fun _ => .queueFull, fun _ => none⟩ =
      [{ imagePath := "a", objects := [], error := some .timeout }] ∧
    DetError.timeout ≠ DetError.submitFail .queueFull := by
  exact ⟨rfl, by decide⟩

/-- C5 (amended): when submitting item `i` fails, the submission loop does
record the wrapped submission error in slot `i` at once — but the wait loop
still waits on item i's private sink until the per-item timeout and then
overwrites the slot, so the returned i-th result carries the timeout error,
not the submission-failure error. -/
theorem batch_submit_failure_overwritten (paths : List String)
    (env : BatchEnv) (i : ℕ) (hi : i < paths.length)
    (hsub : env.submitRes i ≠ .enqueued) (hdel : env.delivery i = none) :
    (batchSubmitLoop paths env)[i]? =
      some { imagePath := (paths.getD i ""), objects := [],
             error := some (.submitFail (env.submitRes i)) } ∧
    (processImageBatch paths env)[i]? =
      some { imagePath := (paths.getD i ""), objects := [],
             error := some .timeout } := by
  constructor
  · unfold batchSubmitLoop
    rw [List.getElem?_map, List.getElem?_enum,
      List.getElem?_eq_getElem hi]
    simp only [Option.map_some', if_neg hsub]
    rw [List.getD_eq_getElem?_getD, List.getElem?_eq_getElem hi]
    rfl
  · rw [processImageBatch_getElem paths env i hi]
    unfold waitResult
    rw [hdel]

/-- Witness for `batch_submit_failure_overwritten` at a concrete
one-element batch whose only submission fails. -/
theorem batch_submit_failure_overwritten_witness :
    0 < (["a"] : List String).length ∧
    ((fun _ => SubmitResult.queueFull) 0 ≠ SubmitResult.enqueued) ∧
    ((batchSubmitLoop ["a"] ⟨fun _ => .queueFull, fun _ => none⟩)[0]? =
      some { imagePath := ((["a"] : List String).getD 0 ""), objects := [],
             error := some (.submitFail ((fun _ => SubmitResult.queueFull) 0)) } ∧
     (processImageBatch ["a"] ⟨fun _ => .queueFull, fun _ => none⟩)[0]? =
      some { imagePath := ((["a"] : List String).getD 0 ""), objects := [],
             error := some .timeout }) :=
  ⟨by decide, by decide,
    batch_submit_failure_overwritten ["a"] ⟨fun _ => .queueFull, fun _ => none⟩
      0 (by decide) (by decide) rfl⟩

/-- The suppression sweep keeps a subsequence of its input (kept boxes stay
in iteration order). -/
theorem suppressPass_sublist (l : List boundingBox) (thr : ℚ) :
    (suppressPass l thr).Sublist l := by
  induction l, thr using suppressPass.induct with
  | case1 thr =>
    rw [suppressPass]
  | case2 b rest thr ih =>
    rw [suppressPass]
    exact (ih.trans (List.filter_sublist rest)).cons₂ b

/-- Any two boxes kept by the sweep, in kept order, with the same label have
IoU strictly below the threshold: a kept box suppressed every later box of
its label whose IoU with it reached the inclusive `≥` bound. -/
theorem suppressPass_pairwise (l : List boundingBox) (thr : ℚ) :
    (suppressPass l thr).Pairwise
      (fun a b => a.label = b.label → a.iou b < thr) := by
  induction l, thr using suppressPass.induct with
  | case1 thr =>
    rw [suppressPass]
    exact List.Pairwise.nil
  | case2 b rest thr ih =>
    rw [suppressPass]
    refine List.Pairwise.cons (fun c hc hlab => ?_) ih
    have hcf : c ∈ rest.filter
        (fun c => decide ¬(b.label = c.label ∧ thr ≤ b.iou c)) :=
      (suppressPass_sublist _ thr).subset hc
    have hp := (List.mem_filter.mp hcf).2
    rw [decide_eq_true_eq] at hp
    exact lt_of_not_le fun hge => hp ⟨hlab, hge⟩

/-- A box dropped by the sweep from a descending-confidence list was dropped
by some kept box of the same label, with IoU at or above the threshold and
confidence at least as high; no box is ever dropped because of a box with a
different label. -/
theorem suppressPass_dropped (l : List boundingBox) (thr : ℚ) :
    l.Pairwise (fun a b => b.confidence ≤ a.confidence) →
    ∀ b ∈ l, b ∉ suppressPass l thr →
      ∃ a ∈ suppressPass l thr, a.label = b.label ∧ thr ≤ a.iou b ∧
        b.confidence ≤ a.confidence := by
  induction l, thr using suppressPass.induct with
  | case1 thr =>
    intro _ b hb
    exact absurd hb (List.not_mem_nil b)
  | case2 hd rest thr ih =>
    intro hs b hb hout
    rw [suppressPass] at hout ⊢
    obtain ⟨hhd, hrest⟩ := List.pairwise_cons.mp hs
    rcases List.mem_cons.mp hb with rfl | hbr
    · exact absurd (List.mem_cons_self _ _) hout
    · by_cases hp : (decide ¬(hd.label = b.label ∧ thr ≤ hd.iou b)) = true
      · have hbf : b ∈ rest.filter
            (fun c => decide ¬(hd.label = c.label ∧ thr ≤ hd.iou c)) :=
          List.mem_filter.mpr ⟨hbr, hp⟩
        have hbs : b ∉ suppressPass
            (rest.filter
              (fun c => decide ¬(hd.label = c.label ∧ thr ≤ hd.iou c))) thr :=
          fun h => hout (List.mem_cons_of_mem hd h)
        obtain ⟨a, ha, haprops⟩ :=
          ih (List.Pairwise.sublist (List.filter_sublist rest) hrest) b hbf hbs
        exact ⟨a, List.mem_cons_of_mem hd ha, haprops⟩
      · rw [decide_eq_true_eq, not_not] at hp
        exact ⟨hd, List.mem_cons_self hd _, hp.1, hp.2, hhd b hbr⟩

/-- The `sort.Slice` stage leaves confidences in descending order. -/
theorem sortByConfidence_sorted (boxes : List boundingBox) :
    (sortByConfidence boxes).Pairwise
      (fun a b => b.confidence ≤ a.confidence) := by
  have h := @List.sorted_mergeSort boundingBox
    (fun a b : boundingBox => decide (b.confidence ≤ a.confidence))
    (fun a b c h1 h2 => by
      rw [decide_eq_true_eq] at h1 h2 ⊢
      exact h2.trans h1)
    (fun a b => by
      rcases le_total b.confidence a.confidence with h | h <;>
        simp [h])
    boxes
  exact h.imp fun hab => of_decide_eq_true hab

/-- The guard clause aside, `nonMaxSuppression` is the sweep applied to the
descending-confidence sort of its input. -/
theorem nonMaxSuppression_eq (boxes : List boundingBox) (thr : ℚ) :
    nonMaxSuppression boxes thr =
      suppressPass (sortByConfidence boxes) thr := by
  unfold nonMaxSuppression
  split_ifs with h
  · rw [List.isEmpty_iff.mp h]
    show ([] : List boundingBox) = suppressPass (sortByConfidence []) thr
    rw [show sortByConfidence [] = [] by simp [sortByConfidence], suppressPass]
  · rfl

/-- C3: the suppression of `nonMaxSuppression` is class-aware and greedy
with an inclusive bound: the output walks the descending-confidence order (a
subsequence of the sorted input), any two kept same-label boxes have
IoU strictly below the threshold (so each kept box suppressed every later
same-label box at or above it, boundary included), and every dropped box was
dropped by a kept box of the same label with IoU `≥` the threshold and
confidence at least as high — never by a box of a different label. -/
theorem nms_class_aware_greedy (boxes : List boundingBox) (thr : ℚ) :
    (nonMaxSuppression boxes thr).Sublist (sortByConfidence boxes) ∧
    (nonMaxSuppression boxes thr).Pairwise
      (fun a b => a.label = b.label → a.iou b < thr) ∧
    ∀ b ∈ sortByConfidence boxes, b ∉ nonMaxSuppression boxes thr →
      ∃ a ∈ nonMaxSuppression boxes thr, a.label = b.label ∧ thr ≤ a.iou b ∧
        b.confidence ≤ a.confidence := by
  rw [nonMaxSuppression_eq]
  exact ⟨suppressPass_sublist _ thr, suppressPass_pairwise _ thr,
    suppressPass_dropped _ thr (sortByConfidence_sorted boxes)⟩

/-- Witness for `nms_class_aware_greedy`: the property instantiated at the
spec's concrete scenario, two same-label boxes at IoU 81/119 with threshold
1/2 (the theorem has no outer hypotheses to discharge). -/
theorem nms_class_aware_greedy_witness :
    (nonMaxSuppression
        [⟨"car", 2, 0, 0, 10, 10⟩, ⟨"car", 1, 1, 1, 11, 11⟩] 1).Sublist
      (sortByConfidence
        [⟨"car", 2, 0, 0, 10, 10⟩, ⟨"car", 1, 1, 1, 11, 11⟩]) ∧
    (nonMaxSuppression
        [⟨"car", 2, 0, 0, 10, 10⟩, ⟨"car", 1, 1, 1, 11, 11⟩] 1).Pairwise
      (fun a b => a.label = b.label → a.iou b < 1) ∧
    ∀ b ∈ sortByConfidence
        [⟨"car", 2, 0, 0, 10, 10⟩, ⟨"car", 1, 1, 1, 11, 11⟩],
      b ∉ nonMaxSuppression
        [⟨"car", 2, 0, 0, 10, 10⟩, ⟨"car", 1, 1, 1, 11, 11⟩] 1 →
      ∃ a ∈ nonMaxSuppression
          [⟨"car", 2, 0, 0, 10, 10⟩, ⟨"car", 1, 1, 1, 11, 11⟩] 1,
        a.label = b.label ∧ 1 ≤ a.iou b ∧ b.confidence ≤ a.confidence :=
  nms_class_aware_greedy
    [⟨"car", 2, 0, 0, 10, 10⟩, ⟨"car", 1, 1, 1, 11, 11⟩] 1

/-- A list whose same-label pairs all sit strictly below the threshold
passes the sweep unchanged. -/
theorem suppressPass_of_pairwise (l : List boundingBox) (thr : ℚ)
    (h : l.Pairwise (fun a b => a.label = b.label → a.iou b < thr)) :
    suppressPass l thr = l := by
  induction l, thr using suppressPass.induct with
  | case1 thr =>
    rw [suppressPass]
  | case2 hd rest thr ih =>
    obtain ⟨hhd, hrest⟩ := List.pairwise_cons.mp h
    have hfilter : rest.filter
        (fun c => decide ¬(hd.label = c.label ∧ thr ≤ hd.iou c)) = rest := by
      refine List.filter_eq_self.mpr fun c hc => ?_
      rw [decide_eq_true_eq]
      exact fun hlab => absurd hlab.2 (not_le.mpr (hhd c hc hlab.1))
    rw [hfilter] at ih
    rw [suppressPass, hfilter, ih hrest]

/-- C9: NMS is idempotent — running `nonMaxSuppression` again on its own
output, with the same threshold, returns that output unchanged (hence the
same set of boxes). -/
theorem nms_idempotent (boxes : List boundingBox) (thr : ℚ) :
    nonMaxSuppression (nonMaxSuppression boxes thr) thr =
      nonMaxSuppression boxes thr := by
  have hout : nonMaxSuppression boxes thr =
      suppressPass (sortByConfidence boxes) thr :=
    nonMaxSuppression_eq boxes thr
  have hsorted : (nonMaxSuppression boxes thr).Pairwise
      (fun a b => b.confidence ≤ a.confidence) := by
    rw [hout]
    exact List.Pairwise.sublist (suppressPass_sublist _ thr)
      (sortByConfidence_sorted boxes)
  have hresort : sortByConfidence (nonMaxSuppression boxes thr) =
      nonMaxSuppression boxes thr := by
    unfold sortByConfidence
    exact List.mergeSort_of_sorted
      (hsorted.imp fun hab => decide_eq_true hab)
  have hpair : (nonMaxSuppression boxes thr).Pairwise
      (fun a b => a.label = b.label → a.iou b < thr) := by
    rw [hout]
    exact suppressPass_pairwise _ thr
  rw [nonMaxSuppression_eq, hresort, suppressPass_of_pairwise _ thr hpair]

/-- The fixed-square letterbox scale is positive for a non-degenerate image
and target. -/
theorem letterboxScaleInfo_scaleX_pos (w h t : ℕ) (hw : 0 < w) (hh : 0 < h)
    (ht : 0 < t) : 0 < (letterboxScaleInfo w h t).scaleX := by
  unfold letterboxScaleInfo
  refine lt_min ?_ ?_ <;>
    exact div_pos (by exact_mod_cast ht) (by positivity <;> exact_mod_cast ‹_›)

/-- Round trip of one coordinate through the forward letterbox map and the
decoder's inverse map: exact recovery whenever the coordinate lies inside
`[0, dim]` and the scale is positive. -/
theorem inverseMapX_forwardMapX (si : ScaleInfo) (dim : ℕ) (x : ℚ)
    (hs : 0 < si.scaleX) (h0 : 0 ≤ x) (hdim : x ≤ (dim : ℚ)) :
    inverseMapX si dim (forwardMapX si x) = x := by
  unfold inverseMapX forwardMapX clamp
  have hx : (x * si.scaleX + (si.padLeft : ℚ) - (si.padLeft : ℚ)) /
      si.scaleX = x := by
    field_simp
  rw [hx, if_neg (not_lt.mpr h0), if_neg (not_lt.mpr hdim)]

/-- Round trip of one y coordinate (see `inverseMapX_forwardMapX`). -/
theorem inverseMapY_forwardMapY (si : ScaleInfo) (dim : ℕ) (y : ℚ)
    (hs : 0 < si.scaleY) (h0 : 0 ≤ y) (hdim : y ≤ (dim : ℚ)) :
    inverseMapY si dim (forwardMapY si y) = y := by
  unfold inverseMapY forwardMapY clamp
  have hy : (y * si.scaleY + (si.padTop : ℚ) - (si.padTop : ℚ)) /
      si.scaleY = y := by
    field_simp
  rw [hy, if_neg (not_lt.mpr h0), if_neg (not_lt.mpr hdim)]

/-- C4: geometry round trip.  For every box lying fully inside a `w × h`
image, pushing each corner through the fixed-square forward letterbox
transform and back through the decoder's inverse map recovers the original
coordinates exactly in exact arithmetic — in particular within the claimed
`1e-3` relative tolerance. -/
theorem letterbox_round_trip (w h t : ℕ) (hw : 0 < w) (hh : 0 < h)
    (ht : 0 < t) (b : boundingBox)
    (hx1 : 0 ≤ b.x1) (hx1w : b.x1 ≤ (w : ℚ))
    (hy1 : 0 ≤ b.y1) (hy1h : b.y1 ≤ (h : ℚ))
    (hx2 : 0 ≤ b.x2) (hx2w : b.x2 ≤ (w : ℚ))
    (hy2 : 0 ≤ b.y2) (hy2h : b.y2 ≤ (h : ℚ)) :
    (inverseMapX (letterboxScaleInfo w h t) w
        (forwardMapX (letterboxScaleInfo w h t) b.x1) = b.x1 ∧
      inverseMapY (letterboxScaleInfo w h t) h
        (forwardMapY (letterboxScaleInfo w h t) b.y1) = b.y1 ∧
      inverseMapX (letterboxScaleInfo w h t) w
        (forwardMapX (letterboxScaleInfo w h t) b.x2) = b.x2 ∧
      inverseMapY (letterboxScaleInfo w h t) h
        (forwardMapY (letterboxScaleInfo w h t) b.y2) = b.y2) ∧
    (|inverseMapX (letterboxScaleInfo w h t) w
        (forwardMapX (letterboxScaleInfo w h t) b.x1) - b.x1| ≤
          1/1000 * |b.x1| ∧
      |inverseMapY (letterboxScaleInfo w h t) h
        (forwardMapY (letterboxScaleInfo w h t) b.y1) - b.y1| ≤
          1/1000 * |b.y1| ∧
      |inverseMapX (letterboxScaleInfo w h t) w
        (forwardMapX (letterboxScaleInfo w h t) b.x2) - b.x2| ≤
          1/1000 * |b.x2| ∧
      |inverseMapY (letterboxScaleInfo w h t) h
        (forwardMapY (letterboxScaleInfo w h t) b.y2) - b.y2| ≤
          1/1000 * |b.y2|) := by
  have hs : 0 < (letterboxScaleInfo w h t).scaleX :=
    letterboxScaleInfo_scaleX_pos w h t hw hh ht
  have hsY : 0 < (letterboxScaleInfo w h t).scaleY := hs
  have e1 := inverseMapX_forwardMapX (letterboxScaleInfo w h t) w b.x1 hs
    hx1 hx1w
  have e2 := inverseMapY_forwardMapY (letterboxScaleInfo w h t) h b.y1 hsY
    hy1 hy1h
  have e3 := inverseMapX_forwardMapX (letterboxScaleInfo w h t) w b.x2 hs
    hx2 hx2w
  have e4 := inverseMapY_forwardMapY (letterboxScaleInfo w h t) h b.y2 hsY
    hy2 hy2h
  refine ⟨⟨e1, e2, e3, e4⟩, ?_, ?_, ?_, ?_⟩
  · rw [e1]
    simp only [sub_self, abs_zero]
    positivity
  · rw [e2]
    simp only [sub_self, abs_zero]
    positivity
  · rw [e3]
    simp only [sub_self, abs_zero]
    positivity
  · rw [e4]
    simp only [sub_self, abs_zero]
    positivity

/-- Witness for `letterbox_round_trip`: the 1080×810 image at target 640
with the box (100, 50, 600, 700). -/
theorem letterbox_round_trip_witness :
    (0 < 1080 ∧ 0 < 810 ∧ 0 < 640 ∧
      (0:ℚ) ≤ 100 ∧ (100:ℚ) ≤ ((1080 : ℕ) : ℚ) ∧
      (0:ℚ) ≤ 50 ∧ (50:ℚ) ≤ ((810 : ℕ) : ℚ) ∧
      (0:ℚ) ≤ 600 ∧ (600:ℚ) ≤ ((1080 : ℕ) : ℚ) ∧
      (0:ℚ) ≤ 700 ∧ (700:ℚ) ≤ ((810 : ℕ) : ℚ)) ∧
    (inverseMapX (letterboxScaleInfo 1080 810 640) 1080
        (forwardMapX (letterboxScaleInfo 1080 810 640)
          (boundingBox.mk "box" 1 100 50 600 700).x1) =
      (boundingBox.mk "box" 1 100 50 600 700).x1 ∧
      inverseMapY (letterboxScaleInfo 1080 810 640) 810
        (forwardMapY (letterboxScaleInfo 1080 810 640)
          (boundingBox.mk "box" 1 100 50 600 700).y1) =
      (boundingBox.mk "box" 1 100 50 600 700).y1 ∧
      inverseMapX (letterboxScaleInfo 1080 810 640) 1080
        (forwardMapX (letterboxScaleInfo 1080 810 640)
          (boundingBox.mk "box" 1 100 50 600 700).x2) =
      (boundingBox.mk "box" 1 100 50 600 700).x2 ∧
      inverseMapY (letterboxScaleInfo 1080 810 640) 810
        (forwardMapY (letterboxScaleInfo 1080 810 640)
          (boundingBox.mk "box" 1 100 50 600 700).y2) =
      (boundingBox.mk "box" 1 100 50 600 700).y2) :=
  ⟨⟨by decide, by decide, by decide, by decide, by decide, by decide,
      by decide, by decide, by decide, by decide, by decide⟩,
    (letterbox_round_trip 1080 810 640 (by decide) (by decide) (by decide)
      (boundingBox.mk "box" 1 100 50 600 700) (by decide) (by decide)
      (by decide) (by decide) (by decide) (by decide) (by decide)
      (by decide)).1⟩

/-- A checked read succeeds exactly when the index is in bounds. -/
theorem outAt_isSome (output : List ℚ) (i : ℕ) :
    (outAt output i).isSome ↔ i < output.length := by
  rw [outAt]
  cases h : output[i]? with
  | none =>
    simp only [Option.isSome_none, Bool.false_eq_true, false_iff, not_lt]
    exact List.getElem?_eq_none_iff.mp h
  | some v =>
    simp only [Option.isSome_some, true_iff]
    obtain ⟨hlt, _⟩ := List.getElem?_eq_some.mp h
    exact hlt

/-- Sequencing checked reads succeeds exactly when every read does. -/
theorem seqOption_isSome {α : Type} :
    ∀ l : List (Option α), (seqOption l).isSome ↔ ∀ o ∈ l, o.isSome
  | [] => by simp [seqOption]
  | o :: rest => by
    rw [seqOption]
    cases o with
    | none => simp
    | some a =>
      simp only [Option.some_bind, Option.isSome_map', List.mem_cons,
        Option.isSome_some, forall_eq_or_imp, true_and]
      exact seqOption_isSome rest

/-- The body of the anchor loop succeeds exactly when its highest read — the
last class channel, at flat index `83·8400 + idx` — is in bounds (all its
other reads sit at lower indices). -/
theorem decodeAnchor_isSome_iff (output : List ℚ)
    (originalWidth originalHeight : ℕ) (confThreshold : ℚ) (si : ScaleInfo)
    (idx : ℕ) :
    (decodeAnchor output originalWidth originalHeight confThreshold si
        idx).isSome ↔ 83 * 8400 + idx < output.length := by
  constructor
  · intro hsome
    by_contra hlen
    rw [not_lt] at hlen
    have h79 : outAt output ((4 + 79) * 8400 + idx) = none := by
      rw [outAt]
      exact List.getElem?_eq_none (by omega)
    have hmem : outAt output ((4 + 79) * 8400 + idx) ∈
        (List.range 80).map
          (fun classIdx => outAt output ((4 + classIdx) * 8400 + idx)) :=
      List.mem_map.mpr ⟨79, List.mem_range.mpr (by omega), rfl⟩
    have hseq : seqOption ((List.range 80).map
        (fun classIdx => outAt output ((4 + classIdx) * 8400 + idx))) =
          none := by
      rw [← Option.not_isSome_iff_eq_none]
      intro h
      have := (seqOption_isSome _).mp h _ hmem
      rw [h79] at this
      simp at this
    rw [decodeAnchor, hseq] at hsome
    cases h0 : outAt output (0 * 8400 + idx) <;>
      cases h1 : outAt output (1 * 8400 + idx) <;>
      cases h2 : outAt output (2 * 8400 + idx) <;>
      cases h3 : outAt output (3 * 8400 + idx) <;>
      rw [h0, h1, h2, h3] at hsome <;>
      simp at hsome
  · intro hlen
    have hread : ∀ a : ℕ, a ≤ 83 → (outAt output (a * 8400 + idx)).isSome := by
      intro a ha
      rw [outAt_isSome]
      have : a * 8400 ≤ 83 * 8400 := Nat.mul_le_mul_right 8400 ha
      omega
    obtain ⟨v0, e0⟩ := Option.isSome_iff_exists.mp (hread 0 (by omega))
    obtain ⟨v1, e1⟩ := Option.isSome_iff_exists.mp (hread 1 (by omega))
    obtain ⟨v2, e2⟩ := Option.isSome_iff_exists.mp (hread 2 (by omega))
    obtain ⟨v3, e3⟩ := Option.isSome_iff_exists.mp (hread 3 (by omega))
    obtain ⟨probs, e4⟩ := Option.isSome_iff_exists.mp
      ((seqOption_isSome ((List.range 80).map
          (fun classIdx => outAt output ((4 + classIdx) * 8400 + idx)))).mpr
        (fun o ho => by
          obtain ⟨c, hc, rfl⟩ := List.mem_map.mp ho
          have hc80 : c < 80 := List.mem_range.mp hc
          exact hread (4 + c) (by omega)))
    rw [decodeAnchor, e0, e1, e2, e3, e4]
    dsimp only
    split_ifs <;> simp

/-- C10: `processOutput` reads the raw slice at `attribute·8400 + anchor`
for attributes `0..83` and anchors `0..8399` with no bounds check, so every
read is in bounds exactly when the slice holds at least
`84·8400 = 705600` elements: on a shorter slice some read panics (the decode
is `none`), and on a slice of at least that length no read can panic. -/
theorem processOutput_length_precondition (output : List ℚ)
    (originalWidth originalHeight : ℕ) (confThreshold iouThresh : ℚ)
    (si : ScaleInfo) :
    (705600 ≤ output.length →
      (processOutput output originalWidth originalHeight confThreshold
        iouThresh si).isSome) ∧
    (output.length < 705600 →
      processOutput output originalWidth originalHeight confThreshold
        iouThresh si = none) := by
  constructor
  · intro hlen
    have hall : ∀ o ∈ (List.range 8400).map
        (decodeAnchor output originalWidth originalHeight confThreshold si),
        o.isSome := by
      intro o ho
      obtain ⟨idx, hidx, rfl⟩ := List.mem_map.mp ho
      rw [decodeAnchor_isSome_iff]
      have := List.mem_range.mp hidx
      omega
    obtain ⟨cands, hc⟩ :=
      Option.isSome_iff_exists.mp ((seqOption_isSome _).mpr hall)
    rw [processOutput, hc]
    rfl
  · intro hlen
    have h8399 : decodeAnchor output originalWidth originalHeight
        confThreshold si 8399 = none := by
      rw [← Option.not_isSome_iff_eq_none, decodeAnchor_isSome_iff]
      omega
    have hmem : decodeAnchor output originalWidth originalHeight
        confThreshold si 8399 ∈ (List.range 8400).map
          (decodeAnchor output originalWidth originalHeight confThreshold
            si) :=
      List.mem_map.mpr ⟨8399, List.mem_range.mpr (by omega), rfl⟩
    have hseq : seqOption ((List.range 8400).map
        (decodeAnchor output originalWidth originalHeight confThreshold
          si)) = none := by
      rw [← Option.not_isSome_iff_eq_none]
      intro h
      have := (seqOption_isSome _).mp h _ hmem
      rw [h8399] at this
      simp at this
    rw [processOutput, hseq]

/-- Witness for `processOutput_length_precondition`: a slice of exactly
705600 zeros decodes without a panic, and a one-element slice panics. -/
theorem processOutput_length_precondition_witness :
    (705600 ≤ (List.replicate 705600 (0 : ℚ)).length ∧
      (processOutput (List.replicate 705600 (0 : ℚ)) 640 640 1 1
        (ScaleInfo.mk 1 1 0 0 0 0)).isSome) ∧
    ((List.replicate 1 (0 : ℚ)).length < 705600 ∧
      processOutput (List.replicate 1 (0 : ℚ)) 640 640 1 1
        (ScaleInfo.mk 1 1 0 0 0 0) = none) :=
  ⟨⟨by rw [List.length_replicate],
    (processOutput_length_precondition (List.replicate 705600 0)
      640 640 1 1 (ScaleInfo.mk 1 1 0 0 0 0)).1
      (by rw [List.length_replicate])⟩,
    ⟨by decide, (processOutput_length_precondition (List.replicate 1 0)
      640 640 1 1 (ScaleInfo.mk 1 1 0 0 0 0)).2 (by decide)⟩⟩

end YoloSpec
